import Mathlib

/-!
# Daily Time Log — verification of the log reconciliation and aggregation engine

Shallow embedding of the time-logging application's core logic:

* the `LogEntry` value type (`src/types/index.ts`) and the zod validation
  schema `logEntrySchema` (`LogEntryModal`);
* the calendar sync reconciliation (`src/app/api/calendar/sync/route.ts`,
  `POST`): filter out old `'calendar'` entries, append the freshly fetched
  batch, sort by start time, save;
* the N-day window construction (`src/app/api/logs/route.ts`, `GET` with
  `days`), which pushes one `{date, entries}` element per day, most recent
  day first, substituting an empty entry list for absent records;
* the dashboard statistics (`DashboardStats.getStatistics`,
  `getTotalDuration`);
* the client edit/delete handlers (`LogEntryModal.onSubmit`,
  `handleDeleteEntry`).

JavaScript numbers produced by `Date.getTime()` are modelled as `Option Int`
(milliseconds since the Unix epoch, with `none` playing the role of `NaN`,
which arises from an invalid date and propagates through `+`/`-` and makes
every `<`/`>` comparison false).  Division (`averageDuration`) is modelled
exactly over `ℚ`.  ISO-8601 timestamp parsing (`date-fns parseISO` /
`new Date(...)`) is modelled by an executable parser for the timestamp
shapes the application produces (`YYYY-MM-DD`, `YYYY-MM-DDTHH:MM`,
optionally with seconds and a trailing `Z`), with years 1970–9999; the
model identifies local time with UTC, which is sound because no claim
compares instants across time zones.
-/

/-- JS addition where either operand may be `NaN` (`none`). -/
def jsAdd (a b : Option Int) : Option Int :=
  match a, b with
  | some x, some y => some (x + y)
  | _, _ => none

/-- JS subtraction where either operand may be `NaN` (`none`). -/
def jsSub (a b : Option Int) : Option Int :=
  match a, b with
  | some x, some y => some (x - y)
  | _, _ => none

/-- JS `a > b`: any comparison involving `NaN` is false. -/
def jsGt (a b : Option Int) : Bool :=
  match a, b with
  | some x, some y => decide (y < x)
  | _, _ => false

/-- JS `a || b` on an optional string: `undefined` and `''` are falsy. -/
def jsOrStr (a : Option String) (b : String) : String :=
  match a with
  | some s => if s.isEmpty then b else s
  | none => b

/-- Value of a decimal digit character. -/
def digitVal (c : Char) : Option Nat :=
  if '0' ≤ c ∧ c ≤ '9' then some (c.toNat - '0'.toNat) else none

/-- Two-digit decimal number. -/
def nat2 (a b : Char) : Option Nat := do
  let x ← digitVal a
  let y ← digitVal b
  pure (10 * x + y)

/-- Four-digit decimal number. -/
def nat4 (a b c d : Char) : Option Nat := do
  let x ← digitVal a
  let y ← digitVal b
  let z ← digitVal c
  let w ← digitVal d
  pure (1000 * x + 100 * y + 10 * z + w)

/-- Gregorian leap-year test. -/
def isLeapYear (y : Nat) : Bool :=
  (y % 4 == 0 && y % 100 != 0) || y % 400 == 0

/-- Number of days in a month of a given year. -/
def daysInMonth (y m : Nat) : Nat :=
  if m = 2 then (if isLeapYear y then 29 else 28)
  else if m = 4 ∨ m = 6 ∨ m = 9 ∨ m = 11 then 30
  else 31

/-- Days from 1970-01-01 to the start of year `y` (for `y ≥ 1970`). -/
def daysBeforeYear (y : Nat) : Nat :=
  (List.range (y - 1970)).foldl
    (fun acc i => acc + (if isLeapYear (1970 + i) then 366 else 365)) 0

/-- Days from the start of year `y` to the start of month `m`. -/
def daysBeforeMonth (y m : Nat) : Nat :=
  (List.range (m - 1)).foldl (fun acc i => acc + daysInMonth y (i + 1)) 0

/-- Day index of the civil date `y-m-d` (day 0 = 1970-01-01). -/
def epochDay (y m d : Nat) : Nat :=
  daysBeforeYear y + daysBeforeMonth y m + (d - 1)

/-- Milliseconds since the epoch for a validated date-time, `none` when any
component is out of range (an invalid date). -/
def mkInstant (y m d hh mm ss : Nat) : Option Int :=
  if 1970 ≤ y ∧ y ≤ 9999 ∧ 1 ≤ m ∧ m ≤ 12 ∧ 1 ≤ d ∧ d ≤ daysInMonth y m ∧
      hh ≤ 23 ∧ mm ≤ 59 ∧ ss ≤ 59 then
    some ((epochDay y m d * 86400000 + hh * 3600000 + mm * 60000 + ss * 1000 : Nat) : Int)
  else none

/-- Character-list form of the ISO timestamp parse. -/
def parseChars (cs : List Char) : Option Int :=
  match cs with
  | [a, b, c, d, '-', e, f, '-', g, h] => do
      let y ← nat4 a b c d
      let mo ← nat2 e f
      let dy ← nat2 g h
      mkInstant y mo dy 0 0 0
  | [a, b, c, d, '-', e, f, '-', g, h, 'T', i, j, ':', k, l] => do
      let y ← nat4 a b c d
      let mo ← nat2 e f
      let dy ← nat2 g h
      let hh ← nat2 i j
      let mm ← nat2 k l
      mkInstant y mo dy hh mm 0
  | [a, b, c, d, '-', e, f, '-', g, h, 'T', i, j, ':', k, l, 'Z'] => do
      let y ← nat4 a b c d
      let mo ← nat2 e f
      let dy ← nat2 g h
      let hh ← nat2 i j
      let mm ← nat2 k l
      mkInstant y mo dy hh mm 0
  | [a, b, c, d, '-', e, f, '-', g, h, 'T', i, j, ':', k, l, ':', p, q] => do
      let y ← nat4 a b c d
      let mo ← nat2 e f
      let dy ← nat2 g h
      let hh ← nat2 i j
      let mm ← nat2 k l
      let ss ← nat2 p q
      mkInstant y mo dy hh mm ss
  | [a, b, c, d, '-', e, f, '-', g, h, 'T', i, j, ':', k, l, ':', p, q, 'Z'] => do
      let y ← nat4 a b c d
      let mo ← nat2 e f
      let dy ← nat2 g h
      let hh ← nat2 i j
      let mm ← nat2 k l
      let ss ← nat2 p q
      mkInstant y mo dy hh mm ss
  | _ => none

/-- Model of `date-fns parseISO` / `new Date(s).getTime()` on the timestamp
strings the application produces: `none` is JS `NaN` (invalid date). -/
def parseISO (s : String) : Option Int :=
  parseChars s.toList

/-- `LogEntry.type` (`src/types/index.ts`): `'manual' | 'calendar'`. -/
inductive EntryType where
  | manual
  | calendar
deriving DecidableEq, Repr

/-- `LogEntry` (`src/types/index.ts`): one tracked activity of a day. -/
structure LogEntry where
  mongoId : Option String
  type : EntryType
  startTime : String
  endTime : String
  title : String
  description : String
  sourceId : Option String
deriving DecidableEq, Repr

/-- A `{date, entries}` element of the dashboard's log window (`DayLog`). -/
structure DayLog where
  date : String
  entries : List LogEntry
deriving DecidableEq, Repr

/-- The time field of a Google Calendar event (`start`/`end`). -/
structure GEventTime where
  dateTime : Option String
  date : Option String
deriving DecidableEq, Repr

/-- A Google Calendar event as consumed by the sync route. -/
structure GoogleCalendarEvent where
  id : String
  summary : Option String
  description : Option String
  start : Option GEventTime
  end_ : Option GEventTime
deriving DecidableEq, Repr

/-- Zero-padded two-digit decimal rendering. -/
def pad2 (n : Nat) : String :=
  if n < 10 then "0" ++ toString n else toString n

/-- Number of days in year `y`. -/
def daysInYear (y : Nat) : Nat :=
  if isLeapYear y then 366 else 365

/-- Fuel-driven year extraction: starting at year `y`, peel whole years off
the remaining day count `n`. -/
def yearOfDayAux : Nat → Nat → Nat → Nat × Nat
  | 0, y, n => (y, n)
  | fuel + 1, y, n =>
      if n < daysInYear y then (y, n)
      else yearOfDayAux fuel (y + 1) (n - daysInYear y)

/-- Fuel-driven month extraction within year `y`. -/
def monthOfDayAux (y : Nat) : Nat → Nat → Nat → Nat × Nat
  | 0, m, n => (m, n)
  | fuel + 1, m, n =>
      if n < daysInMonth y m then (m, n)
      else monthOfDayAux y fuel (m + 1) (n - daysInMonth y m)

/-- Model of `format(date, 'yyyy-MM-dd')` on the day index `day`
(day 0 = 1970-01-01). -/
def formatDate (day : Nat) : String :=
  let yr := yearOfDayAux 9000 1970 day
  let md := monthOfDayAux yr.1 12 1 yr.2
  toString yr.1 ++ "-" ++ pad2 md.1 ++ "-" ++ pad2 (md.2 + 1)

/-- The persisted `Log` collection restricted to one user: each `date` key
holds the entry list of that day's record, if a record exists.  The
`(userId, date)` unique index makes the record per date unique, so a
function is a faithful model. -/
def DayStore := String → Option (List LogEntry)

/-- `findOneAndUpdate(..., {upsert: true})` / `log.save()`: full replace of
the day's entry list, creating the record when absent. -/
def updateStore (store : DayStore) (date : String) (entries : List LogEntry) : DayStore :=
  fun d => if d = date then some entries else store d

/-- `GET /api/logs?days=N` (`src/app/api/logs/route.ts` lines 32–50): one
`{date, entries}` element per day, `i = 0` being today, missing records
replaced by an empty entry list. -/
def getWindow (store : DayStore) (today : Nat) (daysCount : Nat) : List DayLog :=
  (List.range daysCount).map (fun i =>
    let targetDate := formatDate (today - i)
    { date := targetDate, entries := (store targetDate).getD [] })

/-- Conversion of one Google Calendar event to a log entry
(`sync/route.ts` lines 125–132). -/
def toCalendarEntry (ev : GoogleCalendarEvent) : LogEntry :=
  { mongoId := none
    type := EntryType.calendar
    startTime := jsOrStr (ev.start.bind (fun t => t.dateTime)) (jsOrStr (ev.start.bind (fun t => t.date)) "")
    endTime := jsOrStr (ev.end_.bind (fun t => t.dateTime)) (jsOrStr (ev.end_.bind (fun t => t.date)) "")
    title := jsOrStr ev.summary "Untitled Event"
    description := jsOrStr ev.description ""
    sourceId := some ev.id }

/-- Numeric sort key `new Date(e.startTime).getTime()`; claims about the
sorted result are stated up to permutation, so the `NaN` fallback to `0`
in the key is immaterial. -/
def startKey (e : LogEntry) : Int :=
  (parseISO e.startTime).getD 0

/-- `entries.sort((a, b) => new Date(a.startTime).getTime() - new Date(b.startTime).getTime())`
(`sync/route.ts` line 150). -/
def sortByStartTime (l : List LogEntry) : List LogEntry :=
  l.mergeSort (fun a b => decide (startKey a ≤ startKey b))

/-- The sync reconciliation on one day's entry list
(`sync/route.ts` lines 145–150): drop old `'calendar'` entries, append the
fresh batch, re-sort chronologically. -/
def syncEntries (entries batch : List LogEntry) : List LogEntry :=
  sortByStartTime (entries.filter (fun e => !(e.type == EntryType.calendar)) ++ batch)

/-- `POST /api/calendar/sync` after authentication (`sync/route.ts` lines
114–158): the Google batch fetch either fails (the `catch` at lines 159–165
returns an error response and nothing was saved) or yields the day's
events, which are converted, reconciled into the day record and saved; the
response carries `entriesAdded = calendarEntries.length`. -/
def syncPost (store : DayStore) (date : String)
    (fetchResult : Except Unit (List GoogleCalendarEvent)) : DayStore × Option Nat :=
  match fetchResult with
  | Except.error _ => (store, none)
  | Except.ok events =>
      let calendarEntries := events.map toCalendarEntry
      let entries := (store date).getD []
      let newEntries := syncEntries entries calendarEntries
      (updateStore store date newEntries, some calendarEntries.length)

/-- `getTotalDuration` (`DashboardStats`): sum of
`parseISO(endTime).getTime() - parseISO(startTime).getTime()` in ms. -/
def getTotalDuration (entries : List LogEntry) : Option Int :=
  entries.foldl
    (fun total e => jsAdd total (jsSub (parseISO e.endTime) (parseISO e.startTime)))
    (some 0)

/-- The record returned by `getStatistics` (`DashboardStats`). -/
structure DayStats where
  totalEntries : Nat
  totalDuration : Option Int
  manualEntries : Nat
  calendarEntries : Nat
  averageDuration : Option ℚ
  mostProductiveDay : DayLog
  daysTracked : Nat
deriving Repr

/-- `getStatistics` (`DashboardStats` lines 19–43): window aggregates, all
reduced over the `logs` array. -/
def getStatistics (logs : List DayLog) : DayStats :=
  let totalEntries := logs.foldl (fun acc l => acc + l.entries.length) 0
  let totalDuration := logs.foldl (fun acc l => jsAdd acc (getTotalDuration l.entries)) (some 0)
  let manualEntries := logs.foldl
    (fun acc l => acc + (l.entries.filter (fun e => e.type == EntryType.manual)).length) 0
  let calendarEntries := logs.foldl
    (fun acc l => acc + (l.entries.filter (fun e => e.type == EntryType.calendar)).length) 0
  let averageDuration : Option ℚ :=
    if 0 < logs.length then totalDuration.map (fun t => (t : ℚ) / (logs.length : ℚ))
    else some 0
  let mostProductiveDay := logs.foldl
    (fun m l => if jsGt (getTotalDuration l.entries) (getTotalDuration m.entries) then l else m)
    (logs.headD { date := "", entries := [] })
  { totalEntries := totalEntries
    totalDuration := totalDuration
    manualEntries := manualEntries
    calendarEntries := calendarEntries
    averageDuration := averageDuration
    mostProductiveDay := mostProductiveDay
    daysTracked := logs.length }

/-- The fields of the add/edit entry form (`LogEntryModal`). -/
structure LogEntryForm where
  title : String
  description : Option String
  startTime : String
  endTime : String
deriving DecidableEq, Repr

/-- `logEntrySchema` (`LogEntryModal` lines 11–23): `title`, `startTime`,
`endTime` must be nonempty, and `parseISO(endTime) > parseISO(startTime)`
(false when either side is an invalid date). -/
def logEntrySchemaCheck (f : LogEntryForm) : Bool :=
  decide (1 ≤ f.title.length) && decide (1 ≤ f.startTime.length) &&
  decide (1 ≤ f.endTime.length) && jsGt (parseISO f.endTime) (parseISO f.startTime)

/-- The new entry built in the add branch of `onSubmit`
(`LogEntryModal` lines 91–97): `description: data.description || ''`,
`type: 'manual'`. -/
def newEntryFromForm (f : LogEntryForm) : LogEntry :=
  { mongoId := none
    type := EntryType.manual
    startTime := f.startTime
    endTime := f.endTime
    title := f.title
    description := jsOrStr f.description ""
    sourceId := none }

/-- The spread `{...e, ...data, type: 'manual'}` applied to the matched
entry in the edit branch of `onSubmit` (`LogEntryModal` lines 85–89). -/
def applyFormPatch (e : LogEntry) (f : LogEntryForm) : LogEntry :=
  { e with
    title := f.title
    description := match f.description with | some d => d | none => e.description
    startTime := f.startTime
    endTime := f.endTime
    type := EntryType.manual }

/-- The edit branch of `onSubmit` (`LogEntryModal` lines 83–89): map the
current entries, patching the one whose `_id` equals the target id. -/
def editEntries (entries : List LogEntry) (target : Option String)
    (f : LogEntryForm) : List LogEntry :=
  entries.map (fun e => if e.mongoId = target then applyFormPatch e f else e)

/-- The edit submission end to end: read the day's entries (absent record
reads as `[]`), patch, `PUT` the full list back (upsert). -/
def editPost (store : DayStore) (date : String) (target : Option String)
    (f : LogEntryForm) : DayStore :=
  updateStore store date (editEntries ((store date).getD []) target f)

/-- `handleDeleteEntry`'s filter (`entry._id !== entryId`). -/
def removeEntry (entries : List LogEntry) (entryId : String) : List LogEntry :=
  entries.filter (fun e => !(e.mongoId == some entryId))

/-- `handleDeleteEntry` end to end: when the day has a record, `PUT` the
filtered entry list; when it has none, return without any request. -/
def deletePost (store : DayStore) (date : String) (entryId : String) : DayStore :=
  match store date with
  | none => store
  | some entries => updateStore store date (removeEntry entries entryId)

/-! ## Specification-side definitions and concrete test data -/

/-- Concrete data exercising the sync reconciler: a manual standup entry and
one Google Calendar meeting event. -/
def standupEntry : LogEntry :=
  { mongoId := some "s1"
    type := EntryType.manual
    startTime := "2024-01-02T09:00Z"
    endTime := "2024-01-02T09:15Z"
    title := "Standup"
    description := ""
    sourceId := none }

def meetingEvent : GoogleCalendarEvent :=
  { id := "g1"
    summary := some "Meeting"
    description := none
    start := some { dateTime := some "2024-01-02T10:00Z", date := none }
    end_ := some { dateTime := some "2024-01-02T11:00Z", date := none } }

/-- Concrete data for the edit handler: a synced (calendar-kind) entry with
id `"a"` and a patch form. -/
def calendarMeeting : LogEntry :=
  { mongoId := some "a"
    type := EntryType.calendar
    startTime := "2024-01-02T10:00Z"
    endTime := "2024-01-02T11:00Z"
    title := "Meeting"
    description := ""
    sourceId := some "g1" }

def editPatch : LogEntryForm :=
  { title := "Edited"
    description := some "x"
    startTime := "2024-01-02T10:30Z"
    endTime := "2024-01-02T11:00Z" }

/-- Millisecond duration `end - start` of one entry with validly parsing
timestamps. -/
def entryDurationSpec (e : LogEntry) : Int :=
  (parseISO e.endTime).getD 0 - (parseISO e.startTime).getD 0

/-- A day's own total tracked duration. -/
def dayDurationSpec (l : DayLog) : Int :=
  (l.entries.map entryDurationSpec).sum

/-- Every entry of every day in the window has validly parsing start and
end timestamps (so no JS `NaN` arises in the aggregates). -/
def allParse (logs : List DayLog) : Prop :=
  ∀ l ∈ logs, ∀ e ∈ l.entries,
    (parseISO e.startTime).isSome ∧ (parseISO e.endTime).isSome

instance (logs : List DayLog) : Decidable (allParse logs) := by
  unfold allParse
  exact inferInstance

/-- Concrete three-day window in the style of Scenario E: 2024-01-10 has a
4-hour entry, 2024-01-09 has no record, 2024-01-08 has a 2-hour entry. -/
def morningWork : LogEntry :=
  { mongoId := some "w1"
    type := EntryType.manual
    startTime := "2024-01-08T09:00Z"
    endTime := "2024-01-08T11:00Z"
    title := "Morning work"
    description := ""
    sourceId := none }

def afternoonWork : LogEntry :=
  { mongoId := some "w2"
    type := EntryType.manual
    startTime := "2024-01-10T13:00Z"
    endTime := "2024-01-10T17:00Z"
    title := "Afternoon work"
    description := ""
    sourceId := none }

def aggStore : DayStore := fun d =>
  if d = "2024-01-10" then some [afternoonWork]
  else if d = "2024-01-08" then some [morningWork]
  else none

/-- First maximum of `a :: xs` under `key`, scanning left to right: a later
element replaces the current best only when strictly greater. -/
def firstMaxAcc (key : DayLog → Int) (a : DayLog) : List DayLog → DayLog
  | [] => a
  | x :: xs => if key a < key x then firstMaxAcc key x xs else firstMaxAcc key a xs

/-- Concrete tie: 2024-01-01 and 2024-01-02 each have one one-hour entry;
2024-01-02 is "today" so the window lists it first. -/
def tieEntryEarly : LogEntry :=
  { mongoId := some "t1"
    type := EntryType.manual
    startTime := "2024-01-01T09:00Z"
    endTime := "2024-01-01T10:00Z"
    title := "A"
    description := ""
    sourceId := none }

def tieEntryLate : LogEntry :=
  { mongoId := some "t2"
    type := EntryType.manual
    startTime := "2024-01-02T10:00Z"
    endTime := "2024-01-02T11:00Z"
    title := "B"
    description := ""
    sourceId := none }

def tieStore : DayStore := fun d =>
  if d = "2024-01-02" then some [tieEntryLate]
  else if d = "2024-01-01" then some [tieEntryEarly]
  else none

/-! ## Supporting lemmas -/

theorem jsGt_iff {a b : Option Int} :
    jsGt a b = true ↔ ∃ x y, a = some x ∧ b = some y ∧ y < x := by
  cases a with
  | none => simp [jsGt]
  | some x =>
    cases b with
    | none => simp [jsGt]
    | some y => simp [jsGt]

theorem parseISO_ne_empty {s : String} {t : Int} (h : parseISO s = some t) :
    1 ≤ s.length := by
  by_contra hlen
  have h0 : s.length = 0 := by omega
  have hdata : s.data = [] := List.length_eq_zero.mp h0
  have : s.toList = [] := hdata
  rw [parseISO, this] at h
  simp [parseChars] at h

theorem filter_not_calendar_eq_filter_manual (entries : List LogEntry) :
    entries.filter (fun e => !(e.type == EntryType.calendar)) =
      entries.filter (fun e => e.type == EntryType.manual) := by
  apply List.filter_congr
  intro e _
  cases e.type <;> rfl

theorem toCalendarEntry_type (ev : GoogleCalendarEvent) :
    (toCalendarEntry ev).type = EntryType.calendar := rfl

theorem syncEntries_perm (entries batch : List LogEntry) :
    List.Perm (syncEntries entries batch)
      (entries.filter (fun e => !(e.type == EntryType.calendar)) ++ batch) :=
  List.mergeSort_perm _ _

/-! ## C1, C2, C9, C10 — the sync reconciler -/

/-- C1: syncing a fresh batch keeps every `'manual'` entry unchanged and
present, drops every previously existing `'calendar'` entry, and the
resulting entry multiset is exactly the kept manual entries together with
the fresh batch. -/
theorem sync_preserves_manual_and_replaces_calendar
    (entries : List LogEntry) (events : List GoogleCalendarEvent) :
    List.Perm (syncEntries entries (events.map toCalendarEntry))
      (entries.filter (fun e => e.type == EntryType.manual) ++ events.map toCalendarEntry) ∧
    (∀ e ∈ entries, e.type = EntryType.manual →
      e ∈ syncEntries entries (events.map toCalendarEntry)) ∧
    (∀ e ∈ syncEntries entries (events.map toCalendarEntry),
      e ∈ entries.filter (fun e => e.type == EntryType.manual) ∨
        e ∈ events.map toCalendarEntry) := by
  have h1 := syncEntries_perm entries (events.map toCalendarEntry)
  rw [filter_not_calendar_eq_filter_manual] at h1
  refine ⟨h1, ?_, ?_⟩
  · intro e he hm
    apply h1.mem_iff.mpr
    exact List.mem_append_left _ (List.mem_filter.mpr ⟨he, by simp [hm]⟩)
  · intro e he
    exact List.mem_append.mp (h1.mem_iff.mp he)

theorem sync_preserves_manual_and_replaces_calendar_witness :
    standupEntry ∈ syncEntries [standupEntry] ([meetingEvent].map toCalendarEntry) :=
  (sync_preserves_manual_and_replaces_calendar [standupEntry] [meetingEvent]).2.1
    standupEntry (by decide) (by decide)

/-- C2: re-running the sync with an identical fresh batch yields the same
entry multiset as running it once. -/
theorem sync_idempotent (entries : List LogEntry) (events : List GoogleCalendarEvent) :
    List.Perm
      (syncEntries (syncEntries entries (events.map toCalendarEntry))
        (events.map toCalendarEntry))
      (syncEntries entries (events.map toCalendarEntry)) := by
  have hbatchfilter :
      (events.map toCalendarEntry).filter (fun e => !(e.type == EntryType.calendar)) = [] := by
    rw [List.filter_eq_nil_iff]
    intro a ha
    obtain ⟨ev, _, rfl⟩ := List.mem_map.mp ha
    simp [toCalendarEntry]
  have h1 := syncEntries_perm entries (events.map toCalendarEntry)
  have h2 := h1.filter (fun e => !(e.type == EntryType.calendar))
  rw [List.filter_append, hbatchfilter, List.append_nil, List.filter_filter] at h2
  have hpp : (fun (a : LogEntry) =>
      (!(a.type == EntryType.calendar)) && (!(a.type == EntryType.calendar))) =
      (fun (a : LogEntry) => !(a.type == EntryType.calendar)) :=
    funext fun a => Bool.and_self _
  rw [hpp] at h2
  exact ((syncEntries_perm _ _).trans (h2.append_right _)).trans h1.symm

/-- C9: when the Google Calendar batch fetch fails, the handler lands in the
catch block and nothing is saved: the store is returned untouched and no
`entriesAdded` is reported. -/
theorem sync_fetch_failure_no_mutation (store : DayStore) (date : String) (u : Unit) :
    syncPost store date (Except.error u) = (store, none) := rfl

/-- C10: a successful sync reports `entriesAdded = calendarEntries.length`,
the full size of the fresh batch, even on an immediate re-sync with the
identical batch (it never reports the net change). -/
theorem entriesAdded_counts_whole_batch (store : DayStore) (date : String)
    (events : List GoogleCalendarEvent) :
    (syncPost store date (Except.ok events)).2 = some events.length ∧
    (syncPost (syncPost store date (Except.ok events)).1 date (Except.ok events)).2 =
      some events.length := by
  constructor <;> simp [syncPost]

/-! ## C6 — interval validation -/

theorem jsGt_none_right (a : Option Int) : jsGt a none = false := by
  cases a <;> rfl

theorem length_pos_of_ne_empty {s : String} (h : s ≠ "") : 1 ≤ s.length := by
  by_contra hl
  have h0 : s.length = 0 := by omega
  have hdata : s.data = [] := List.length_eq_zero.mp h0
  apply h
  cases s with
  | mk data => cases hdata; rfl

theorem logEntrySchemaCheck_true_iff (f : LogEntryForm) :
    logEntrySchemaCheck f = true ↔
      1 ≤ f.title.length ∧ ∃ ts te, parseISO f.startTime = some ts ∧
        parseISO f.endTime = some te ∧ ts < te := by
  unfold logEntrySchemaCheck
  rw [Bool.and_eq_true, Bool.and_eq_true, Bool.and_eq_true]
  constructor
  · rintro ⟨⟨⟨h1, _⟩, _⟩, h4⟩
    obtain ⟨x, y, hx, hy, hlt⟩ := jsGt_iff.mp h4
    exact ⟨of_decide_eq_true h1, y, x, hy, hx, hlt⟩
  · rintro ⟨h1, ts, te, hs, he, hlt⟩
    exact ⟨⟨⟨decide_eq_true h1, decide_eq_true (parseISO_ne_empty hs)⟩,
      decide_eq_true (parseISO_ne_empty he)⟩, jsGt_iff.mpr ⟨te, ts, he, hs, hlt⟩⟩

/-- C6: the form schema rejects the entry exactly when the title is empty,
when a timestamp does not parse as a valid instant, or when the end is not
after the start; the concrete interval of P6 (start 2024-01-01T10:00Z, end
2024-01-01T09:00Z) is rejected whatever the other fields are; and a missing
description is normalized to the empty string. -/
theorem interval_validation_spec (f : LogEntryForm) :
    (logEntrySchemaCheck f = false ↔
      f.title = "" ∨ parseISO f.startTime = none ∨ parseISO f.endTime = none ∨
        ∃ ts te, parseISO f.startTime = some ts ∧ parseISO f.endTime = some te ∧
          te ≤ ts) ∧
    logEntrySchemaCheck
      { f with startTime := "2024-01-01T10:00Z", endTime := "2024-01-01T09:00Z" } = false ∧
    (newEntryFromForm { f with description := none }).description = "" := by
  refine ⟨?_, ?_, ?_⟩
  · rw [Bool.eq_false_iff, Ne, logEntrySchemaCheck_true_iff]
    constructor
    · intro h
      by_cases ht : f.title = ""
      · exact Or.inl ht
      · cases hs : parseISO f.startTime with
        | none => exact Or.inr (Or.inl rfl)
        | some ts =>
          cases he : parseISO f.endTime with
          | none => exact Or.inr (Or.inr (Or.inl rfl))
          | some te =>
            refine Or.inr (Or.inr (Or.inr ⟨ts, te, rfl, rfl, ?_⟩))
            by_contra hle
            exact h ⟨length_pos_of_ne_empty ht, ts, te, hs, he, by omega⟩
    · rintro (h | h | h | ⟨ts, te, hs, he, hle⟩) ⟨h1, ts', te', hs', he', hlt⟩
      · rw [h] at h1
        simp at h1
      · rw [h] at hs'
        cases hs'
      · rw [h] at he'
        cases he'
      · rw [hs] at hs'
        rw [he] at he'
        cases hs'
        cases he'
        omega
  · have hfalse : jsGt (parseISO "2024-01-01T09:00Z") (parseISO "2024-01-01T10:00Z") = false := by
      decide
    simp [logEntrySchemaCheck, hfalse]
  · simp [newEntryFromForm, jsOrStr]

/-! ## C7 — editing an entry -/

/-- C7 (counterexample): the edit path never raises a NotFoundError.  At a
concrete input whose only entry is calendar-kind with id `"a"`, editing id
`"a"` succeeds and rewrites the synced entry in place (flipping its kind to
manual), and editing the absent id `"zz"` is a silent no-op that saves the
unchanged list — both contradicting the claimed NotFoundError behavior. -/
theorem editEntry_notFound_counterexample :
    editEntries [calendarMeeting] (some "a") editPatch =
      [{ mongoId := some "a"
         type := EntryType.manual
         startTime := "2024-01-02T10:30Z"
         endTime := "2024-01-02T11:00Z"
         title := "Edited"
         description := "x"
         sourceId := some "g1" }] ∧
    editEntries [calendarMeeting] (some "zz") editPatch = [calendarMeeting] := by
  decide

/-- C7 (amended): `editManualInterval(id, patch)` is total — no
NotFoundError exists in the code.  The entry list keeps its length; when no
entry carries the target id the saved list is exactly the old one (a no-op
success); the entry carrying the target id — whatever its kind — is
replaced by the patched entry, whose kind is forced to manual; and every
entry with a different id is kept unchanged. -/
theorem editEntries_total_spec (entries : List LogEntry) (target : Option String)
    (f : LogEntryForm) :
    (editEntries entries target f).length = entries.length ∧
    ((∀ e ∈ entries, e.mongoId ≠ target) → editEntries entries target f = entries) ∧
    (∀ e ∈ entries, e.mongoId = target →
      applyFormPatch e f ∈ editEntries entries target f ∧
        (applyFormPatch e f).type = EntryType.manual) ∧
    (∀ e ∈ entries, e.mongoId ≠ target → e ∈ editEntries entries target f) := by
  refine ⟨List.length_map _ _, ?_, ?_, ?_⟩
  · intro h
    rw [editEntries]
    exact (List.map_congr_left fun e he => if_neg (h e he)).trans (List.map_id' entries)
  · intro e he hid
    constructor
    · rw [editEntries]
      exact List.mem_map.mpr ⟨e, he, by rw [if_pos hid]⟩
    · rfl
  · intro e he hid
    rw [editEntries]
    exact List.mem_map.mpr ⟨e, he, by rw [if_neg hid]⟩

theorem editEntries_total_spec_witness :
    editEntries [calendarMeeting] (some "zz") editPatch = [calendarMeeting] ∧
    applyFormPatch calendarMeeting editPatch ∈
      editEntries [calendarMeeting] (some "a") editPatch :=
  ⟨(editEntries_total_spec [calendarMeeting] (some "zz") editPatch).2.1 (by decide),
    ((editEntries_total_spec [calendarMeeting] (some "a") editPatch).2.2.1
      calendarMeeting (by decide) (by decide)).1⟩

/-! ## C8 — removing an entry -/

/-- C8: `removeInterval(id)` filters by id only, regardless of kind: every
entry carrying the id is gone from the result, every other entry survives
unchanged, the operation is idempotent, and removing an id that no entry
carries returns the list unchanged — a no-op success, not an error. -/
theorem removeEntry_spec (entries : List LogEntry) (entryId : String) :
    (∀ e ∈ entries, e.mongoId = some entryId → e ∉ removeEntry entries entryId) ∧
    (∀ e ∈ entries, e.mongoId ≠ some entryId → e ∈ removeEntry entries entryId) ∧
    removeEntry (removeEntry entries entryId) entryId = removeEntry entries entryId ∧
    ((∀ e ∈ entries, e.mongoId ≠ some entryId) → removeEntry entries entryId = entries) := by
  refine ⟨?_, ?_, ?_, ?_⟩
  · intro e _ hid hmem
    have := (List.mem_filter.mp hmem).2
    simp [hid] at this
  · intro e he hid
    refine List.mem_filter.mpr ⟨he, ?_⟩
    simp [hid]
  · rw [removeEntry, removeEntry, List.filter_filter]
    apply List.filter_congr
    intro e _
    exact Bool.and_self _
  · intro h
    rw [removeEntry]
    apply List.filter_eq_self.mpr
    intro e he
    simp [h e he]
theorem removeEntry_spec_witness :
    (standupEntry ∉ removeEntry [standupEntry, calendarMeeting] "s1") ∧
    calendarMeeting ∈ removeEntry [standupEntry, calendarMeeting] "s1" ∧
    removeEntry (removeEntry [standupEntry, calendarMeeting] "s1") "s1" =
      removeEntry [standupEntry, calendarMeeting] "s1" ∧
    removeEntry [calendarMeeting] "s1" = [calendarMeeting] :=
  ⟨(removeEntry_spec [standupEntry, calendarMeeting] "s1").1 standupEntry
      (by decide) (by decide),
    (removeEntry_spec [standupEntry, calendarMeeting] "s1").2.1 calendarMeeting
      (by decide) (by decide),
    (removeEntry_spec [standupEntry, calendarMeeting] "s1").2.2.1,
    (removeEntry_spec [calendarMeeting] "s1").2.2.2 (by decide)⟩

/-! ## C3, C4, C5 — window aggregation -/

theorem getTotalDuration_foldl (entries : List LogEntry) (t : Int)
    (h : ∀ e ∈ entries, (parseISO e.startTime).isSome ∧ (parseISO e.endTime).isSome) :
    entries.foldl
      (fun total e => jsAdd total (jsSub (parseISO e.endTime) (parseISO e.startTime)))
      (some t) = some (t + (entries.map entryDurationSpec).sum) := by
  induction entries generalizing t with
  | nil => simp
  | cons e es ih =>
    obtain ⟨hs, he⟩ := h e (List.mem_cons_self _ _)
    obtain ⟨a, ha⟩ := Option.isSome_iff_exists.mp hs
    obtain ⟨b, hb⟩ := Option.isSome_iff_exists.mp he
    rw [List.foldl_cons]
    have hstep : jsAdd (some t) (jsSub (parseISO e.endTime) (parseISO e.startTime)) =
        some (t + (b - a)) := by
      rw [ha, hb]
      rfl
    have hdur : entryDurationSpec e = b - a := by
      rw [entryDurationSpec, ha, hb]
      rfl
    rw [hstep, ih _ (fun x hx => h x (List.mem_cons_of_mem _ hx))]
    simp [hdur]
    ring

theorem getTotalDuration_eq (entries : List LogEntry)
    (h : ∀ e ∈ entries, (parseISO e.startTime).isSome ∧ (parseISO e.endTime).isSome) :
    getTotalDuration entries = some ((entries.map entryDurationSpec).sum) := by
  rw [getTotalDuration, getTotalDuration_foldl entries 0 h, zero_add]

theorem windowDuration_foldl (logs : List DayLog) (t : Int) (h : allParse logs) :
    logs.foldl (fun acc l => jsAdd acc (getTotalDuration l.entries)) (some t) =
      some (t + (logs.map dayDurationSpec).sum) := by
  induction logs generalizing t with
  | nil => simp
  | cons l ls ih =>
    rw [List.foldl_cons, getTotalDuration_eq l.entries (h l (List.mem_cons_self _ _))]
    have hstep : jsAdd (some t) (some ((l.entries.map entryDurationSpec).sum)) =
        some (t + dayDurationSpec l) := rfl
    rw [hstep, ih _ (fun x hx => h x (List.mem_cons_of_mem _ hx))]
    simp [List.sum_cons]
    ring

theorem getStatistics_totalDuration (logs : List DayLog) :
    (getStatistics logs).totalDuration =
      logs.foldl (fun acc l => jsAdd acc (getTotalDuration l.entries)) (some 0) := rfl

/-- C5: over any window, the computed `totalDuration` is the sum of
`end - start` over every interval of every day (whenever the timestamps
parse, which is the only case in which the sum is meaningful in JS), and a
window whose days all have no entries yields exactly `0`. -/
theorem totalDuration_spec (logs : List DayLog) :
    (allParse logs →
      (getStatistics logs).totalDuration = some ((logs.map dayDurationSpec).sum)) ∧
    ((∀ l ∈ logs, l.entries = []) → (getStatistics logs).totalDuration = some 0) := by
  constructor
  · intro h
    rw [getStatistics_totalDuration, windowDuration_foldl logs 0 h, zero_add]
  · intro h
    have hvac : allParse logs := by
      intro l hl e he
      rw [h l hl] at he
      cases he
    rw [getStatistics_totalDuration, windowDuration_foldl logs 0 hvac, zero_add]
    have : (logs.map dayDurationSpec).sum = 0 := by
      apply List.sum_eq_zero
      intro x hx
      obtain ⟨l, hl, rfl⟩ := List.mem_map.mp hx
      rw [dayDurationSpec, h l hl]
      rfl
    rw [this]

theorem getStatistics_averageDuration (logs : List DayLog) :
    (getStatistics logs).averageDuration =
      if 0 < logs.length then
        (logs.foldl (fun acc l => jsAdd acc (getTotalDuration l.entries)) (some 0)).map
          (fun t => (t : ℚ) / (logs.length : ℚ))
      else some 0 := rfl

theorem getWindow_length (store : DayStore) (today daysCount : Nat) :
    (getWindow store today daysCount).length = daysCount := by
  simp [getWindow]

/-- C4: the window always has exactly `daysCount` elements — days without a
record count too — and `averageDuration` is exactly the window's total
duration divided by `daysCount`; a window of entirely empty days gives
average `0` and total `0`, with no division-by-zero fault. -/
theorem averageDuration_spec (store : DayStore) (today daysCount : Nat) :
    (getWindow store today daysCount).length = daysCount ∧
    (allParse (getWindow store today daysCount) →
      (getStatistics (getWindow store today daysCount)).averageDuration =
        some ((((getWindow store today daysCount).map dayDurationSpec).sum : ℚ) /
          (daysCount : ℚ))) ∧
    ((∀ l ∈ getWindow store today daysCount, l.entries = []) →
      (getStatistics (getWindow store today daysCount)).averageDuration = some 0 ∧
      (getStatistics (getWindow store today daysCount)).totalDuration = some 0) := by
  have hlen := getWindow_length store today daysCount
  have havg : ∀ h : allParse (getWindow store today daysCount),
      (getStatistics (getWindow store today daysCount)).averageDuration =
        some ((((getWindow store today daysCount).map dayDurationSpec).sum : ℚ) /
          (daysCount : ℚ)) := by
    intro h
    rw [getStatistics_averageDuration, windowDuration_foldl _ 0 h, zero_add, hlen]
    by_cases hd : 0 < daysCount
    · rw [if_pos hd]
      rfl
    · have hd0 : daysCount = 0 := by omega
      subst hd0
      have hw : getWindow store today 0 = [] := rfl
      rw [if_neg (by omega)]
      rw [hw]
      norm_num
  refine ⟨hlen, havg, ?_⟩
  · intro h
    have hvac : allParse (getWindow store today daysCount) := by
      intro l hl e he
      rw [h l hl] at he
      cases he
    have hzero : ((getWindow store today daysCount).map dayDurationSpec).sum = 0 := by
      apply List.sum_eq_zero
      intro x hx
      obtain ⟨l, hl, rfl⟩ := List.mem_map.mp hx
      rw [dayDurationSpec, h l hl]
      rfl
    constructor
    · rw [havg hvac, hzero]
      norm_num
    · exact (totalDuration_spec (getWindow store today daysCount)).2 h

theorem averageDuration_spec_witness :
    (getStatistics (getWindow aggStore 19732 3)).averageDuration =
      some ((((getWindow aggStore 19732 3).map dayDurationSpec).sum : ℚ) / (3 : ℚ)) :=
  (averageDuration_spec aggStore 19732 3).2.1 (by decide)

theorem totalDuration_spec_witness :
    (getStatistics (getWindow aggStore 19732 3)).totalDuration =
      some (((getWindow aggStore 19732 3).map dayDurationSpec).sum) :=
  (totalDuration_spec (getWindow aggStore 19732 3)).1 (by decide)

theorem foldl_eq_firstMaxAcc (key : DayLog → Int) :
    ∀ (xs : List DayLog) (a : DayLog),
      xs.foldl (fun m l => if key m < key l then l else m) a = firstMaxAcc key a xs := by
  intro xs
  induction xs with
  | nil => intro a; rfl
  | cons x xs ih =>
    intro a
    rw [List.foldl_cons, firstMaxAcc]
    by_cases h : key a < key x
    · rw [if_pos h, if_pos h, ih]
    · rw [if_neg h, if_neg h, ih]

theorem firstMaxAcc_split (key : DayLog → Int) :
    ∀ (xs : List DayLog) (a : DayLog),
      ∃ l₁ l₂, a :: xs = l₁ ++ firstMaxAcc key a xs :: l₂ ∧
        (∀ x ∈ a :: xs, key x ≤ key (firstMaxAcc key a xs)) ∧
        (∀ x ∈ l₁, key x < key (firstMaxAcc key a xs)) := by
  intro xs
  induction xs with
  | nil =>
    intro a
    refine ⟨[], [], rfl, ?_, ?_⟩
    · intro x hx
      rw [List.mem_singleton] at hx
      subst hx
      exact le_refl _
    · intro x hx
      cases hx
  | cons y ys ih =>
    intro a
    by_cases h : key a < key y
    · obtain ⟨l₁, l₂, hsplit, hmax, hfirst⟩ := ih y
      rw [show firstMaxAcc key a (y :: ys) = firstMaxAcc key y ys from by
        rw [firstMaxAcc, if_pos h]]
      have hyM : key y ≤ key (firstMaxAcc key y ys) := hmax y (List.mem_cons_self _ _)
      refine ⟨a :: l₁, l₂, ?_, ?_, ?_⟩
      · rw [List.cons_append, ← hsplit]
      · intro x hx
        rcases List.mem_cons.mp hx with rfl | hx
        · exact le_of_lt (lt_of_lt_of_le h hyM)
        · exact hmax x hx
      · intro x hx
        rcases List.mem_cons.mp hx with rfl | hx
        · exact lt_of_lt_of_le h hyM
        · exact hfirst x hx
    · obtain ⟨l₁, l₂, hsplit, hmax, hfirst⟩ := ih a
      rw [show firstMaxAcc key a (y :: ys) = firstMaxAcc key a ys from by
        rw [firstMaxAcc, if_neg h]]
      have hya : key y ≤ key a := le_of_not_lt h
      have haM : key a ≤ key (firstMaxAcc key a ys) := hmax a (List.mem_cons_self _ _)
      cases l₁ with
      | nil =>
        rw [List.nil_append] at hsplit
        injection hsplit with h1 h2
        refine ⟨[], y :: ys, ?_, ?_, ?_⟩
        · rw [List.nil_append, ← h1]
        · intro x hx
          rcases List.mem_cons.mp hx with rfl | hx
          · exact haM
          · rcases List.mem_cons.mp hx with rfl | hx
            · exact le_trans hya haM
            · exact hmax x (List.mem_cons_of_mem _ hx)
        · intro x hx
          cases hx
      | cons b l₁' =>
        rw [List.cons_append] at hsplit
        injection hsplit with h1 h2
        have hbM : key a < key (firstMaxAcc key a ys) := by
          have hb := hfirst b (List.mem_cons_self _ _)
          rw [← h1] at hb
          exact hb
        refine ⟨a :: y :: l₁', l₂, ?_, ?_, ?_⟩
        · rw [List.cons_append, List.cons_append, ← h2]
        · intro x hx
          rcases List.mem_cons.mp hx with rfl | hx
          · exact haM
          · rcases List.mem_cons.mp hx with rfl | hx
            · exact le_trans hya haM
            · exact hmax x (List.mem_cons_of_mem _ hx)
        · intro x hx
          rcases List.mem_cons.mp hx with rfl | hx
          · exact hbM
          · rcases List.mem_cons.mp hx with rfl | hx
            · exact lt_of_le_of_lt hya hbM
            · exact hfirst x (List.mem_cons_of_mem _ hx)

theorem foldl_jsStep_eq_intStep :
    ∀ (xs : List DayLog) (a : DayLog),
      (∀ l ∈ a :: xs, getTotalDuration l.entries = some (dayDurationSpec l)) →
      xs.foldl
        (fun m l => if jsGt (getTotalDuration l.entries) (getTotalDuration m.entries) then l else m)
        a =
      xs.foldl (fun m l => if dayDurationSpec m < dayDurationSpec l then l else m) a := by
  intro xs
  induction xs with
  | nil => intro a _; rfl
  | cons y ys ih =>
    intro a h
    have ha := h a (List.mem_cons_self _ _)
    have hy := h y (List.mem_cons_of_mem _ (List.mem_cons_self _ _))
    rw [List.foldl_cons, List.foldl_cons]
    have hstep :
        (if jsGt (getTotalDuration y.entries) (getTotalDuration a.entries) then y else a) =
          (if dayDurationSpec a < dayDurationSpec y then y else a) := by
      rw [ha, hy]
      simp [jsGt]
    rw [hstep]
    by_cases hc : dayDurationSpec a < dayDurationSpec y
    · rw [if_pos hc]
      refine ih y ?_
      intro l hl
      rcases List.mem_cons.mp hl with rfl | hl
      · exact hy
      · exact h l (List.mem_cons_of_mem _ (List.mem_cons_of_mem _ hl))
    · rw [if_neg hc]
      refine ih a ?_
      intro l hl
      rcases List.mem_cons.mp hl with rfl | hl
      · exact ha
      · exact h l (List.mem_cons_of_mem _ (List.mem_cons_of_mem _ hl))

theorem getStatistics_mostProductiveDay (logs : List DayLog) :
    (getStatistics logs).mostProductiveDay =
      logs.foldl
        (fun m l => if jsGt (getTotalDuration l.entries) (getTotalDuration m.entries) then l else m)
        (logs.headD { date := "", entries := [] }) := rfl

/-- C3 (amended): over any window with validly parsing timestamps,
`mostProductiveDay` is a day of maximal own total duration, with ties
broken in favor of the day occurring first in the window sequence — which
the days-window API orders most-recent-first — and an empty window yields
the placeholder record `{date: '', entries: []}` rather than null. -/
theorem mostProductiveDay_first_of_max (logs : List DayLog) (h : allParse logs) :
    (logs = [] →
      (getStatistics logs).mostProductiveDay = { date := "", entries := [] }) ∧
    (logs ≠ [] → ∃ l₁ l₂,
      logs = l₁ ++ (getStatistics logs).mostProductiveDay :: l₂ ∧
      (∀ l ∈ logs,
        dayDurationSpec l ≤ dayDurationSpec ((getStatistics logs).mostProductiveDay)) ∧
      (∀ l ∈ l₁,
        dayDurationSpec l < dayDurationSpec ((getStatistics logs).mostProductiveDay))) := by
  constructor
  · rintro rfl
    rfl
  · intro hne
    obtain ⟨x, xs, rfl⟩ := List.exists_cons_of_ne_nil hne
    have hdur : ∀ l ∈ x :: xs, getTotalDuration l.entries = some (dayDurationSpec l) :=
      fun l hl => getTotalDuration_eq _ (h l hl)
    have hmpd : (getStatistics (x :: xs)).mostProductiveDay = firstMaxAcc dayDurationSpec x xs := by
      rw [getStatistics_mostProductiveDay, List.headD_cons, List.foldl_cons, ite_self,
        foldl_jsStep_eq_intStep xs x hdur, foldl_eq_firstMaxAcc]
    rw [hmpd]
    exact firstMaxAcc_split dayDurationSpec xs x

/-- C3 (counterexample): in the two-day window over `tieStore` both days
have the same maximal total duration, yet `mostProductiveDay` is the
2024-01-02 record — the most recent date, not the earliest — and an empty
window produces the placeholder `{date: '', entries: []}`, not
null/undefined. -/
theorem mostProductiveDay_not_earliest_on_tie :
    getWindow tieStore 19724 2 =
      [{ date := "2024-01-02", entries := [tieEntryLate] },
       { date := "2024-01-01", entries := [tieEntryEarly] }] ∧
    getTotalDuration [tieEntryEarly] = getTotalDuration [tieEntryLate] ∧
    (getStatistics (getWindow tieStore 19724 2)).mostProductiveDay.date = "2024-01-02" ∧
    (getStatistics []).mostProductiveDay = { date := "", entries := [] } := by
  decide

theorem mostProductiveDay_first_of_max_witness :
    ∃ l₁ l₂,
      getWindow tieStore 19724 2 =
        l₁ ++ (getStatistics (getWindow tieStore 19724 2)).mostProductiveDay :: l₂ ∧
      (∀ l ∈ getWindow tieStore 19724 2,
        dayDurationSpec l ≤
          dayDurationSpec ((getStatistics (getWindow tieStore 19724 2)).mostProductiveDay)) ∧
      (∀ l ∈ l₁,
        dayDurationSpec l <
          dayDurationSpec ((getStatistics (getWindow tieStore 19724 2)).mostProductiveDay)) :=
  (mostProductiveDay_first_of_max (getWindow tieStore 19724 2) (by decide)).2 (by decide)
